import Mathlib

/-!
Verification of the profile-resolution and multi-tier caching engine of the
aws-containers repository (api-server and native-messaging hosts).

Shallow embedding conventions:
* Python `datetime` values are abstracted to `Int` timestamps (seconds, UTC);
  comparisons between datetimes become integer comparisons.  Where the source
  compares datetimes parsed from fixed-width `"%Y-%m-%d %H:%M:%S"` strings,
  the canonical single-space rendering is kept and compared lexicographically,
  which agrees with chronological order.
* Python dicts keyed by strings become association lists with dict update
  semantics (in-place overwrite of an existing key, append otherwise), so
  iteration order matches Python's insertion order.
* Filesystem and network are explicit inputs: the SSO disk cache is a record
  of (hashed-name file lookup, directory scan), the federation exchange is an
  oracle argument, and functions that in the source perform I/O return the
  data they would produce plus a flag or updated state.
-/

/-! ## Character/string helpers mirroring the Python primitives used -/

/-- Python `\s` / `str.strip` whitespace (ASCII part). -/
def pyWs (c : Char) : Bool :=
  c = ' ' || c = '\t' || c = '\n' || c = '\r' || c = '\x0b' || c = '\x0c'

/-- `str.strip()`. -/
def pyStrip (s : String) : String :=
  String.mk ((((s.toList.dropWhile pyWs).reverse.dropWhile pyWs).reverse))

/-- If `pat` is a leading run of `cs`, return the remainder. -/
def stripLeading : List Char → List Char → Option (List Char)
  | [], cs => some cs
  | _ :: _, [] => none
  | p :: ps, c :: cs => if c = p then stripLeading ps cs else none

/-- `str.startswith`. -/
def pyStartsWith (s p : String) : Bool :=
  (stripLeading p.toList s.toList).isSome

/-- `str.endswith`. -/
def pyEndsWith (s p : String) : Bool :=
  (stripLeading p.toList.reverse s.toList.reverse).isSome

/-- Slicing from the left: `s[n:]`. -/
def pyDrop (s : String) (n : Nat) : String :=
  String.mk (s.toList.drop n)

/-- Slicing from the right: `s[:-n]` composed with `pyDrop` gives `s[a:-b]`. -/
def pyDropRight (s : String) (n : Nat) : String :=
  String.mk (s.toList.take (s.toList.length - n))

/-- `line.split("=", 1)` when `"=" in line`: split at the first `'='`. -/
def splitFirstEq : List Char → Option (List Char × List Char)
  | [] => none
  | c :: cs =>
    if c = '=' then some ([], cs)
    else (splitFirstEq cs).map (fun p => (c :: p.1, p.2))

/-- `"=" in line` followed by `line.split("=", 1)` with both parts stripped. -/
def splitKV (line : String) : Option (String × String) :=
  (splitFirstEq line.toList).map
    (fun p => (pyStrip (String.mk p.1), pyStrip (String.mk p.2)))

/-- Substring containment test (`pat in s`). -/
def containsSub : List Char → List Char → Bool
  | cs, pat =>
    match cs with
    | [] => (stripLeading pat []).isSome
    | _ :: t => (stripLeading pat cs).isSome || containsSub t pat

/-- `pat in s` on strings. -/
def pyContains (s pat : String) : Bool :=
  containsSub s.toList pat.toList

/-- Truthiness of an optional string (`None` and `""` are falsy). -/
def truthy : Option String → Bool
  | none => false
  | some s => s ≠ ""

/-- Lexicographic order on char lists (Python comparison of canonical
fixed-width timestamp strings). -/
def charListLt : List Char → List Char → Bool
  | [], [] => false
  | [], _ :: _ => true
  | _ :: _, [] => false
  | a :: as, b :: bs => if a < b then true else if b < a then false else charListLt as bs

/-- Python `<` on two canonical timestamp strings. -/
def strLt (a b : String) : Bool :=
  charListLt a.toList b.toList

/-- Generic string-keyed dict with Python update semantics. -/
def dictSet {α : Type} (m : List (String × α)) (k : String) (v : α) :
    List (String × α) :=
  if m.any (fun kv => kv.1 = k) then
    m.map (fun kv => if kv.1 = k then (k, v) else kv)
  else m ++ [(k, v)]

/-- Dict lookup (first, hence only, binding of a key). -/
def dictGet {α : Type} (m : List (String × α)) (k : String) : Option α :=
  (m.find? (fun kv => kv.1 = k)).map (fun kv => kv.2)

/-! ## SSO token cache (`sso_manager.py`, class `SSOTokenCache`) -/

/-- A bearer-token payload as read from an SSO cache JSON file.  Only the
fields the source consults are modelled; `expiresAt` is the parsed
timestamp when the key is present. -/
structure Token where
  expiresAt : Option Int
  accessToken : Option String
  startUrl : Option String
deriving DecidableEq, Repr

/-- `DEFAULT_CACHE_TTL_SECONDS = 30`. -/
def DEFAULT_CACHE_TTL_SECONDS : Int := 30

/-- `SSOTokenCache._is_token_valid`: requires an `expiresAt` key and a
strictly future expiry. -/
def isTokenValid (t : Token) (now : Int) : Bool :=
  match t.expiresAt with
  | none => false
  | some e => now < e

/-- The in-process memory tier: `start_url → (token, cache_time)`. -/
abbrev Memory := List (String × Token × Int)

def memLookup : Memory → String → Option (Token × Int)
  | [], _ => none
  | (k, t, c) :: rest, u => if k = u then some (t, c) else memLookup rest u

def memErase : Memory → String → Memory
  | [], _ => []
  | (k, t, c) :: rest, u =>
    if k = u then memErase rest u else (k, t, c) :: memErase rest u

/-- `_save_to_memory`: dict assignment of `(token, now)` under the url. -/
def memSave (m : Memory) (u : String) (t : Token) (now : Int) : Memory :=
  memErase m u ++ [(u, t, now)]

/-- The on-disk tier owned by the external identity provider.  `hashFile u`
is the content of the file whose name is the SHA1 hash of `u` (`none`: no
such file; `some none`: unreadable or invalid JSON; `some (some t)`: parsed token).
`scanFiles` lists every `*.json` file's parse result, in glob order. -/
structure Disk where
  dirExists : Bool
  hashFile : String → Option (Option Token)
  scanFiles : List (Option Token)

/-- `_get_from_memory`: freshness window, then token-expiry check; stale or
expired entries are deleted. -/
def getFromMemory (m : Memory) (u : String) (now : Int) :
    Option Token × Memory :=
  match memLookup m u with
  | none => (none, m)
  | some (t, ct) =>
    if DEFAULT_CACHE_TTL_SECONDS ≤ now - ct then (none, memErase m u)
    else if isTokenValid t now then (some t, m)
    else (none, memErase m u)

/-- `_get_by_hash`: read the hashed-name file, return its token only when
valid; unreadable files and invalid tokens are treated as absent. -/
def getByHash (d : Disk) (u : String) (now : Int) : Option Token :=
  match d.hashFile u with
  | none => none
  | some none => none
  | some (some t) => if isTokenValid t now then some t else none

/-- `_search_cache_files`: linear scan of all cache files, matching
`startUrl` by content and skipping unreadable files and expired tokens. -/
def searchCacheFiles (files : List (Option Token)) (u : String) (now : Int) :
    Option Token :=
  match files with
  | [] => none
  | none :: rest => searchCacheFiles rest u now
  | some t :: rest =>
    if t.startUrl = some u then
      if isTokenValid t now then some t else searchCacheFiles rest u now
    else searchCacheFiles rest u now

/-- `_get_from_file`: hashed fast path, then linear scan. -/
def getFromFile (d : Disk) (u : String) (now : Int) : Option Token :=
  if d.dirExists then
    match getByHash d u now with
    | some t => some t
    | none => searchCacheFiles d.scanFiles u now
  else none

/-- Full state of an `SSOTokenCache` instance plus the directory it reads. -/
structure CacheState where
  memory : Memory
  disk : Disk

/-- `get_token`: memory tier first, then disk; a disk hit is promoted into
the memory tier. -/
def getToken (s : CacheState) (u : String) (now : Int) :
    Option Token × CacheState :=
  match getFromMemory s.memory u now with
  | (some t, m') => (some t, { s with memory := m' })
  | (none, m') =>
    match getFromFile s.disk u now with
    | some t => (some t, { s with memory := memSave m' u t now })
    | none => (none, { s with memory := m' })

/-- `clear`: empties the memory tier only. -/
def cacheClear (s : CacheState) : CacheState :=
  { s with memory := [] }

/-! ## Console URL cache (`api-server core/url_cache.py`, class `ConsoleURLCache`) -/

/-- One TinyDB document of the console-URL cache.  `credential_expiry` holds
the parsed value of the stored ISO string (`none` when stored as `None`). -/
structure CacheEntry where
  name : String
  url : String
  expires_at : Int
  cached_at : Int
  credential_expiry : Option Int
deriving DecidableEq, Repr

/-- The in-memory TinyDB table, documents in doc-id order. -/
abbrev UrlDB := List CacheEntry

/-- Constructor default `default_ttl = 43200` (12 hours). -/
def CONSOLE_DEFAULT_TTL : Int := 43200

/-- `db.search(Profile.name == n)`. -/
def urlSearch (db : UrlDB) (n : String) : List CacheEntry :=
  db.filter (fun e => e.name = n)

/-- `db.remove(Profile.name == n)`. -/
def urlRemove (db : UrlDB) (n : String) : UrlDB :=
  db.filter (fun e => ¬ e.name = n)

/-- `db.upsert(doc, Profile.name == doc.name)`: update every matching
document in place, insert when none matches. -/
def urlUpsert (db : UrlDB) (e : CacheEntry) : UrlDB :=
  if db.any (fun q => q.name = e.name) then
    db.map (fun q => if q.name = e.name then e else q)
  else db ++ [e]

/-- The rotation check of `ConsoleURLCache.get`: both the current expiry
and the recorded one are present (truthy) and differ. -/
def expiryMismatch (currentExpiry recorded : Option Int) : Bool :=
  match currentExpiry, recorded with
  | some ce, some re => ce ≠ re
  | _, _ => false

/-- `ConsoleURLCache.get`: first matching entry; discard on a credential
expiry recorded-vs-current mismatch, discard past `expires_at`, else hit. -/
def urlCacheGet (db : UrlDB) (profileName : String)
    (currentExpiry : Option Int) (now : Int) : Option String × UrlDB :=
  match urlSearch db profileName with
  | [] => (none, db)
  | entry :: _ =>
    if expiryMismatch currentExpiry entry.credential_expiry then
      (none, urlRemove db profileName)
    else if entry.expires_at < now then (none, urlRemove db profileName)
    else (some entry.url, db)

/-- The `expires_at` value `ConsoleURLCache.set` computes: the credential
expiry when one is given, otherwise `now + default_ttl`. -/
def setExpiresAt (credentialExpiry : Option Int) (now : Int) : Int :=
  match credentialExpiry with
  | some e => e
  | none => now + CONSOLE_DEFAULT_TTL

/-- `ConsoleURLCache.set`. -/
def urlCacheSet (db : UrlDB) (profileName url : String)
    (credentialExpiry : Option Int) (now : Int) : UrlDB :=
  urlUpsert db
    { name := profileName, url := url,
      expires_at := setExpiresAt credentialExpiry now,
      cached_at := now, credential_expiry := credentialExpiry }

/-! ## Console URL generator (`console_url_generator.py`, class `ConsoleURLGenerator`) -/

/-- Constructor configuration of `ConsoleURLGenerator`. -/
structure Generator where
  federation_endpoint : String
  console_url : String
  session_duration : Int
deriving Repr

/-- The constructor defaults. -/
def defaultGenerator : Generator :=
  { federation_endpoint := "https://signin.aws.amazon.com/federation"
  , console_url := "https://console.aws.amazon.com/"
  , session_duration := 43200 }

/-- A credentials dict as passed to `generate_url`; absent keys are `none`
and `.get` truthiness treats `""` like absence. -/
structure Credentials where
  aws_access_key_id : Option String
  aws_secret_access_key : Option String
  aws_session_token : Option String
deriving DecidableEq, Repr

/-- Result of `generate_url`: a dict with a `url` key or an `error` key. -/
inductive GenResult
  | url (u : String)
  | error (msg : String)
deriving DecidableEq, Repr

/-- `_validate_credentials`. -/
def validateCredentials (c : Credentials) : Option String :=
  if ¬ truthy c.aws_access_key_id then some "Missing aws_access_key_id"
  else if ¬ truthy c.aws_secret_access_key then some "Missing aws_secret_access_key"
  else none

/-- Byte kept verbatim by `urllib.parse.quote_plus` (unreserved set). -/
def quoteSafeByte (b : UInt8) : Bool :=
  (65 ≤ b && b ≤ 90) || (97 ≤ b && b ≤ 122) || (48 ≤ b && b ≤ 57) ||
    b = 95 || b = 46 || b = 45 || b = 126

def hexUpper (n : Nat) : Char :=
  if n < 10 then Char.ofNat (48 + n) else Char.ofNat (55 + n)

def quotePlusByte (b : UInt8) : String :=
  if b = 32 then "+"
  else if quoteSafeByte b then String.singleton (Char.ofNat b.toNat)
  else "%" ++ String.singleton (hexUpper (b.toNat / 16)) ++
    String.singleton (hexUpper (b.toNat % 16))

/-- `urllib.parse.quote_plus` over the UTF-8 encoding of the string. -/
def quotePlus (s : String) : String :=
  String.join (s.toUTF8.toList.map quotePlusByte)

/-- `_build_console_url`: the params dict in insertion order, joined as a
query string on the federation endpoint. -/
def buildConsoleUrl (g : Generator) (signinToken : String) : String :=
  g.federation_endpoint ++ "?" ++
    "Action=" ++ quotePlus "login" ++ "&" ++
    "Destination=" ++ quotePlus g.console_url ++ "&" ++
    "SigninToken=" ++ quotePlus signinToken ++ "&" ++
    "Issuer=" ++ quotePlus "https://example.com"

/-- `generate_url`.  `fetchedSigninToken` is the outcome the network call of
`_get_signin_token` would produce (`none` covers non-200 responses, missing
`SigninToken` keys and request exceptions); the boolean in the result records
whether that federation exchange was invoked at all. -/
def generateUrl (g : Generator) (fetchedSigninToken : Option String)
    (c : Credentials) : GenResult × Bool :=
  match validateCredentials c with
  | some err => (GenResult.error err, false)
  | none =>
    if ¬ truthy c.aws_session_token then (GenResult.url g.console_url, false)
    else
      match fetchedSigninToken with
      | none => (GenResult.error "Failed to get federation token from AWS", true)
      | some tok => (GenResult.url (buildConsoleUrl g tok), true)

/-! ## Profile records and file parsers (`api-server core/parsers.py`) -/

/-- A profile dict.  Keys the Python dicts may lack are `Option`/defaulted:
a credentials-store record never carries `is_sso` or SSO fields, which is
the same observable behaviour as `is_sso = false` and absent SSO keys. -/
structure Profile where
  name : String
  has_credentials : Bool
  expiration : Option String
  expired : Bool
  is_sso : Bool
  sso_start_url : Option String
  sso_session : Option String
  sso_region : Option String
  sso_account_id : Option String
  sso_role_name : Option String
  aws_region : Option String
  color : Option String
  icon : Option String
deriving DecidableEq, Repr

/-- Shared initial record: everything absent/false except the name. -/
def emptyProfile (nm : String) : Profile :=
  { name := nm, has_credentials := false, expiration := none, expired := false,
    is_sso := false, sso_start_url := none, sso_session := none,
    sso_region := none, sso_account_id := none, sso_role_name := none,
    aws_region := none, color := none, icon := none }

/-- The abstract methods of `INIFileParser` a concrete parser provides. -/
structure ParserOps where
  extractName : String → String
  create : String → Profile
  parseLine : String → Profile → Profile
  shouldInclude : Profile → Bool

/-- Truthiness of `current_profile` (a `""` section name is falsy). -/
def curTruthy : Option String → Bool
  | none => false
  | some s => s ≠ ""

/-- `INIFileParser._parse_file`'s loop over the stripped lines, carrying
`current_profile` and `profile_data`; a section header saves the previous
profile when the current name is truthy and the parser includes it. -/
def parseLines (ops : ParserOps) :
    List String → Option String → Profile → List Profile
  | [], cur, data =>
    if curTruthy cur && ops.shouldInclude data then [data] else []
  | l :: rest, cur, data =>
    if pyStartsWith (pyStrip l) "[" && pyEndsWith (pyStrip l) "]" then
      (if curTruthy cur && ops.shouldInclude data then [data] else []) ++
        parseLines ops rest (some (ops.extractName (pyStrip l)))
          (ops.create (ops.extractName (pyStrip l)))
    else
      if curTruthy cur then
        parseLines ops rest cur (ops.parseLine (pyStrip l) data)
      else parseLines ops rest cur data

/-- `_parse_file` from the file's lines (the initial `profile_data = {}` is
never saved nor parsed into, so any initial record is observationally
equal). -/
def parseFileLines (ops : ParserOps) (lines : List String) : List Profile :=
  parseLines ops lines none (emptyProfile "")

/-! ### Expiration comments (`CredentialsFileParser._parse_expiration`)

`re.search(r"Expires\s+(\d{4}-\d{2}-\d{2}\s+\d{2}:\d{2}:\d{2})", comment)`
followed by `datetime.strptime(..., "%Y-%m-%d %H:%M:%S")`.  The matched
components are kept; `strptime` plus the `datetime` constructor validate the
calendar ranges.  Wall-clock `datetime.now(utc)` is threaded through as its
canonical `"YYYY-MM-DD HH:MM:SS"` rendering, so the `<` on datetimes is the
lexicographic order of canonical renderings. -/

structure Stamp where
  y : List Char
  mo : List Char
  d : List Char
  h : List Char
  mi : List Char
  s : List Char
deriving DecidableEq, Repr

/-- Exactly `n` digits, returning them and the remainder. -/
def takeDigits : Nat → List Char → Option (List Char × List Char)
  | 0, cs => some ([], cs)
  | _ + 1, [] => none
  | n + 1, c :: cs =>
    if c.isDigit then (takeDigits n cs).map (fun p => (c :: p.1, p.2)) else none

/-- `\s+`: at least one whitespace, consumed greedily (the following atom is
a digit, so greediness never backtracks). -/
def takeWsPlus : List Char → Option (List Char)
  | [] => none
  | c :: cs => if pyWs c then some (cs.dropWhile pyWs) else none

def matchCharTok (ch : Char) : List Char → Option (List Char)
  | [] => none
  | c :: cs => if c = ch then some cs else none

/-- Match `\d{4}-\d{2}-\d{2}\s+\d{2}:\d{2}:\d{2}` at the head. -/
def matchStamp (cs : List Char) : Option Stamp := do
  let (y, cs) ← takeDigits 4 cs
  let cs ← matchCharTok '-' cs
  let (mo, cs) ← takeDigits 2 cs
  let cs ← matchCharTok '-' cs
  let (d, cs) ← takeDigits 2 cs
  let cs ← takeWsPlus cs
  let (h, cs) ← takeDigits 2 cs
  let cs ← matchCharTok ':' cs
  let (mi, cs) ← takeDigits 2 cs
  let cs ← matchCharTok ':' cs
  let (s, _) ← takeDigits 2 cs
  pure { y := y, mo := mo, d := d, h := h, mi := mi, s := s }

/-- Try the whole pattern (`Expires`, `\s+`, stamp) at the head. -/
def tryExpiresAt (cs : List Char) : Option Stamp := do
  let cs ← stripLeading "Expires".toList cs
  let cs ← takeWsPlus cs
  matchStamp cs

/-- `re.search`: leftmost position where the whole pattern matches. -/
def searchExpires : List Char → Option Stamp
  | [] => none
  | c :: cs =>
    match tryExpiresAt (c :: cs) with
    | some st => some st
    | none => searchExpires cs

def digitsVal (cs : List Char) : Nat :=
  cs.foldl (fun a c => a * 10 + (c.toNat - 48)) 0

def isLeapYear (y : Nat) : Bool :=
  y % 4 = 0 && (y % 100 ≠ 0 || y % 400 = 0)

def daysInMonth (y m : Nat) : Nat :=
  if m = 2 then (if isLeapYear y then 29 else 28)
  else if m = 4 || m = 6 || m = 9 || m = 11 then 30
  else 31

/-- The checks `strptime` and the `datetime` constructor perform on the
two-digit/four-digit components. -/
def stampValid (st : Stamp) : Bool :=
  let y := digitsVal st.y
  let mo := digitsVal st.mo
  let d := digitsVal st.d
  1 ≤ y && 1 ≤ mo && mo ≤ 12 && 1 ≤ d && d ≤ daysInMonth y mo &&
    digitsVal st.h ≤ 23 && digitsVal st.mi ≤ 59 && digitsVal st.s ≤ 59

/-- Canonical `"YYYY-MM-DD HH:MM:SS"` rendering of the parsed datetime. -/
def stampCanonical (st : Stamp) : String :=
  String.mk (st.y ++ '-' :: st.mo ++ '-' :: st.d ++ ' ' ::
    st.h ++ ':' :: st.mi ++ ':' :: st.s)

/-- `exp_time.replace(tzinfo=utc).isoformat()`. -/
def stampIso (st : Stamp) : String :=
  String.mk (st.y ++ '-' :: st.mo ++ '-' :: st.d ++ 'T' ::
    st.h ++ ':' :: st.mi ++ ':' :: st.s) ++ "+00:00"

/-- `_parse_expiration comment` at wall-clock `nowStr`: the ISO rendering
and the `expired` flag, or `None` when the pattern is absent or the stamp
fails `strptime`/constructor validation. -/
def parseExpiration (comment : String) (nowStr : String) :
    Option (String × Bool) :=
  match searchExpires comment.toList with
  | none => none
  | some st =>
    if stampValid st then some (stampIso st, strLt (stampCanonical st) nowStr)
    else none

/-! ### The two concrete parsers -/

/-- `CredentialsFileParser._extract_profile_name`: `header[1:-1]`. -/
def credExtractName (header : String) : String :=
  pyDropRight (pyDrop header 1) 1

/-- `_create_profile_data` of the credentials parser (no `is_sso` key). -/
def credCreate (nm : String) : Profile := emptyProfile nm

/-- `CredentialsFileParser._parse_line`. -/
def credParseLine (nowStr : String) (line : String) (p : Profile) : Profile :=
  if pyStartsWith line "#" && pyContains line "Expires" then
    match parseExpiration line nowStr with
    | some ex => { p with expiration := some ex.1, expired := ex.2 }
    | none => p
  else if pyContains line "=" then
    match splitKV line with
    | some kv =>
      if kv.1 = "aws_access_key_id" || kv.1 = "aws_secret_access_key" ||
          kv.1 = "aws_session_token" then
        { p with has_credentials := true }
      else p
    | none => p
  else p

def credOps (nowStr : String) : ParserOps :=
  { extractName := credExtractName, create := credCreate,
    parseLine := credParseLine nowStr, shouldInclude := fun _ => true }

/-- `CredentialsFileParser._parse_file` on the file's lines. -/
def credentialsParse (nowStr : String) (lines : List String) : List Profile :=
  parseFileLines (credOps nowStr) lines

/-- `ConfigFileParser._extract_profile_name`: strip brackets and a
`"profile "` prefix. -/
def configExtractName (header : String) : String :=
  let n := pyDropRight (pyDrop header 1) 1
  if pyStartsWith n "profile " then pyDrop n 8 else n

/-- `_create_profile_data` of the config parser (`is_sso` starts false). -/
def configCreate (nm : String) : Profile := emptyProfile nm

/-- `ConfigFileParser._parse_line`. -/
def configParseLine (line : String) (p : Profile) : Profile :=
  match splitKV line with
  | none => p
  | some kv =>
    if kv.1 = "sso_start_url" then
      { p with is_sso := true, sso_start_url := some kv.2 }
    else if kv.1 = "sso_session" then
      { p with is_sso := true, sso_session := some kv.2 }
    else if kv.1 = "sso_region" then { p with sso_region := some kv.2 }
    else if kv.1 = "sso_account_id" then { p with sso_account_id := some kv.2 }
    else if kv.1 = "sso_role_name" then { p with sso_role_name := some kv.2 }
    else if kv.1 = "region" then { p with aws_region := some kv.2 }
    else p

def configOps : ParserOps :=
  { extractName := configExtractName, create := configCreate,
    parseLine := configParseLine,
    shouldInclude := fun p => p.is_sso }

/-- `ConfigFileParser._parse_file` on the file's lines (`_should_include_profile`
keeps only SSO-marked sections). -/
def configParse (lines : List String) : List Profile :=
  parseFileLines configOps lines

/-! ## File-parse cache (`FileCache` + `INIFileParser.parse`) -/

/-- A file on disk: its modification timestamp and its content (as lines). -/
structure FSFile where
  mtime : Int
  lines : List String
deriving DecidableEq, Repr

/-- `FileCache._cache`: `path → (mtime, data)`. -/
abbrev ParseCache := List (String × Int × List Profile)

/-- `FileCache.get`: `None` for a missing file, a hit only when the cached
mtime equals the file's current mtime. -/
def fileCacheGet (cache : ParseCache) (fs : String → Option FSFile)
    (path : String) : Option (List Profile) :=
  match fs path with
  | none => none
  | some f =>
    match dictGet cache path with
    | some md => if md.1 = f.mtime then some md.2 else none
    | none => none

/-- `FileCache.set`: record the data under the file's current mtime. -/
def fileCacheSet (cache : ParseCache) (fs : String → Option FSFile)
    (path : String) (data : List Profile) : ParseCache :=
  match fs path with
  | some f => dictSet cache path (f.mtime, data)
  | none => cache

/-- `INIFileParser.parse` generically over the concrete `_parse_file`
(`parseFileFn`): cache first, soft-empty on a missing file, else read the
file, parse and cache.  The boolean records whether the file's contents were
read (`with open(...)`). -/
def parseCached (parseFileFn : List String → List Profile)
    (fs : String → Option FSFile) (path : String) (cache : ParseCache) :
    List Profile × ParseCache × Bool :=
  match fileCacheGet cache fs path with
  | some d => (d, cache, false)
  | none =>
    match fs path with
    | none => ([], cache, false)
    | some f =>
      let ps := parseFileFn f.lines
      (ps, fileCacheSet cache fs path ps, true)

/-! ## Per-profile config lookup (`ProfileConfigReader.get_config`) -/

/-- The scan loop of `get_config`: track `in_profile`, collect every
`key = value` line of the first run of sections named `profileName`, stop at
the first differently-named header after it. -/
def getConfigLoop (profileName : String) :
    List String → Bool → List (String × String) → List (String × String)
  | [], _, acc => acc
  | l :: rest, inP, acc =>
    let line := pyStrip l
    if pyStartsWith line "[" && pyEndsWith line "]" then
      let cur0 := pyDropRight (pyDrop line 1) 1
      let cur := if pyStartsWith cur0 "profile " then pyDrop cur0 8 else cur0
      if cur = profileName then getConfigLoop profileName rest true acc
      else if inP then acc
      else getConfigLoop profileName rest false acc
    else
      if inP then
        match splitKV line with
        | some kv => getConfigLoop profileName rest inP (dictSet acc kv.1 kv.2)
        | none => getConfigLoop profileName rest inP acc
      else getConfigLoop profileName rest inP acc

/-- `get_config`: the collected dict, or `None` when it stayed empty (a
missing config file behaves as no lines, hence also `None`). -/
def getConfig (configLines : List String) (profileName : String) :
    Option (List (String × String)) :=
  let cfg := getConfigLoop profileName configLines false []
  if cfg.isEmpty then none else some cfg

/-! ## SSO profile enricher (`sso_manager.py`, class `SSOProfileEnricher`)

The api-server aggregator imports the same-named class from its services
package, whose file is not part of the sources; the native-messaging
`sso_manager.py` definition is used for both. -/

/-- Rendering of an abstract timestamp by `datetime.isoformat`; datetimes
are already abstracted to integers, so their rendering is the canonical
one of the integer. -/
def isoOfTime (t : Int) : String := toString t

/-- `enrich_profile`: non-SSO or url-less profiles pass through; otherwise
consult the token cache (one `get_token` call, whose result and state are
the two projections below) and set `expiration`/`expired`/`has_credentials`. -/
def enrichProfile (st : CacheState) (now : Int) (p : Profile) :
    Profile × CacheState :=
  if ¬ (p.is_sso && truthy p.sso_start_url) then (p, st)
  else
    match (getToken st (p.sso_start_url.getD "") now).1 with
    | some t =>
      match t.expiresAt with
      | some e =>
        ({ p with expiration := some (isoOfTime e),
                  expired := decide (e < now),
                  has_credentials := ! decide (e < now) },
         (getToken st (p.sso_start_url.getD "") now).2)
      | none =>
        ({ p with expired := true, has_credentials := false },
         (getToken st (p.sso_start_url.getD "") now).2)
    | none =>
      ({ p with expired := true, has_credentials := false },
       (getToken st (p.sso_start_url.getD "") now).2)

/-- In-place enrichment of a profile list, threading the token cache. -/
def mapEnrich (now : Int) : CacheState → List Profile →
    List Profile × CacheState
  | st, [] => ([], st)
  | st, p :: ps =>
    ((enrichProfile st now p).1 ::
        (mapEnrich now (enrichProfile st now p).2 ps).1,
      (mapEnrich now (enrichProfile st now p).2 ps).2)

/-! ## Profile aggregator (`api-server core/credentials.py`, class `ProfileAggregator`) -/

/-- The inputs `get_all_profiles` reads: the `.nosso` sentinel, the two
config files' lines, the SDK's profile-name enumeration, and the wall clock
in its two renderings (string for datetime comparisons in the credentials
parser, integer for token arithmetic). -/
structure AggEnv where
  nosso : Bool
  credLines : List String
  configLines : List String
  availableProfiles : List String
  nowStr : String
  now : Int

/-- `_should_skip_sso_profiles`: the `.nosso` file exists. -/
def shouldSkipSso (env : AggEnv) : Bool := env.nosso

/-- `{p["name"]: p for p in ...}[name]`: last record wins. -/
def lookupLastProfile : List Profile → String → Option Profile
  | [], _ => none
  | p :: rest, n =>
    match lookupLastProfile rest n with
    | some q => some q
    | none => if p.name = n then some p else none

/-- The SSO-classified record `_build_profile_info` assembles from the
config-file dict for a marker-carrying profile. -/
def ssoProfileOf (cfg : List (String × String)) (profileName : String) :
    Profile :=
  { emptyProfile profileName with
    is_sso := true,
    has_credentials := true,
    sso_start_url := dictGet cfg "sso_start_url",
    sso_session := dictGet cfg "sso_session",
    sso_region := some ((dictGet cfg "sso_region").getD "us-east-1"),
    sso_account_id := dictGet cfg "sso_account_id",
    sso_role_name := dictGet cfg "sso_role_name",
    aws_region := dictGet cfg "region" }

/-- The record `_build_profile_info` assembles for a profile without SSO
markers: the base dict, overlaid with the credentials-store record's
liveness fields when one exists (dict comprehension keyed by name, so the
last record with the name wins). -/
def credBackedProfile (env : AggEnv) (profileName : String) : Profile :=
  match lookupLastProfile (credentialsParse env.nowStr env.credLines)
      profileName with
  | some cp =>
    { emptyProfile profileName with
      has_credentials := cp.has_credentials,
      expiration := cp.expiration,
      expired := cp.expired }
  | none => emptyProfile profileName

/-- `_build_profile_info` for one SDK-enumerated name. -/
def buildProfileInfo (env : AggEnv) (skipSsoEnrichment : Bool)
    (st : CacheState) (profileName : String) :
    Option Profile × CacheState :=
  match getConfig env.configLines profileName with
  | some cfg =>
    if (dictGet cfg "sso_start_url").isSome ||
        (dictGet cfg "sso_session").isSome then
      if shouldSkipSso env then (none, st)
      else
        if skipSsoEnrichment then (some (ssoProfileOf cfg profileName), st)
        else
          (some (enrichProfile st env.now (ssoProfileOf cfg profileName)).1,
            (enrichProfile st env.now (ssoProfileOf cfg profileName)).2)
    else (some (credBackedProfile env profileName), st)
  | none => (some (credBackedProfile env profileName), st)

/-- The loop of `_get_profiles_with_boto3` over `available_profiles`,
keeping the successfully built records. -/
def buildAllProfiles (env : AggEnv) (skipSsoEnrichment : Bool) :
    List String → CacheState → List Profile × CacheState
  | [], st => ([], st)
  | n :: ns, st =>
    match buildProfileInfo env skipSsoEnrichment st n with
    | (some p, st1) =>
      (p :: (buildAllProfiles env skipSsoEnrichment ns st1).1,
        (buildAllProfiles env skipSsoEnrichment ns st1).2)
    | (none, st1) => buildAllProfiles env skipSsoEnrichment ns st1

/-- `_get_profiles_with_boto3`. -/
def getProfilesWithBoto3 (env : AggEnv) (skipSsoEnrichment : Bool)
    (st : CacheState) : List Profile × CacheState :=
  buildAllProfiles env skipSsoEnrichment env.availableProfiles st

/-- Insertion of one profile into the name-keyed merge dict. -/
def profDictInsert (m : List Profile) (p : Profile) : List Profile :=
  if m.any (fun q => q.name = p.name) then
    m.map (fun q => if q.name = p.name then p else q)
  else m ++ [p]

/-- `_get_profiles_manual`: only the credentials store under `.nosso`;
otherwise optionally enrich the config-store profiles, then merge with the
config-store (SSO) records taking precedence. -/
def getProfilesManual (env : AggEnv) (skipSsoEnrichment : Bool)
    (st : CacheState) : List Profile × CacheState :=
  if shouldSkipSso env then (credentialsParse env.nowStr env.credLines, st)
  else
    ((credentialsParse env.nowStr env.credLines ++
        (if skipSsoEnrichment then (configParse env.configLines, st)
         else mapEnrich env.now st (configParse env.configLines)).1).foldl
      profDictInsert [],
      (if skipSsoEnrichment then (configParse env.configLines, st)
       else mapEnrich env.now st (configParse env.configLines)).2)

/-- `get_all_profiles`: the SDK enumeration path when the SDK is importable,
the manual union otherwise. -/
def getAllProfiles (env : AggEnv) (boto3Available : Bool)
    (skipSsoEnrichment : Bool) (st : CacheState) :
    List Profile × CacheState :=
  if boto3Available then getProfilesWithBoto3 env skipSsoEnrichment st
  else getProfilesManual env skipSsoEnrichment st

/-! ## Message handler output (`aws_profile_bridge.py`,
class `AWSProfileBridgeHandler`) -/

/-- The per-profile cleanup of `_handle_get_profiles` and
`_handle_refresh_cache`: pop every SSO-only key off non-SSO profiles. -/
def cleanupProfile (p : Profile) : Profile :=
  if p.is_sso then p
  else
    { p with sso_start_url := none, sso_session := none, sso_region := none,
             sso_account_id := none, sso_role_name := none }

/-- The profile list `_handle_get_profiles` returns: each aggregated profile
is enriched by the metadata provider (an arbitrary black box here), then
cleaned up. -/
def handleGetProfilesOut (metadataEnrich : Profile → Profile)
    (aggregated : List Profile) : List Profile :=
  aggregated.map (fun p => cleanupProfile (metadataEnrich p))

/-- The profile list `_handle_refresh_cache` stores in the profile cache;
the per-profile processing is the same loop. -/
def handleRefreshCacheOut (metadataEnrich : Profile → Profile)
    (aggregated : List Profile) : List Profile :=
  aggregated.map (fun p => cleanupProfile (metadataEnrich p))

/-! ## Concrete fixtures used to instantiate the theorems -/

/-- An absent SSO cache directory. -/
def trivialDisk : Disk :=
  { dirExists := false, hashFile := fun _ => none, scanFiles := [] }

/-- A fresh token cache over an absent directory. -/
def emptyCache : CacheState := { memory := [], disk := trivialDisk }

/-- A token whose expiry (50) is already past at time 100. -/
def tokExpired : Token :=
  { expiresAt := some 50, accessToken := some "A0", startUrl := some "u" }

/-- A token still live at time 100 (expiry 200). -/
def tokLive : Token :=
  { expiresAt := some 200, accessToken := some "A1", startUrl := some "u" }

/-- A cache directory holding `tokLive` both under the hashed filename for
start URL `"u"` and in the scan listing. -/
def diskWithLive : Disk :=
  { dirExists := true,
    hashFile := fun x => if x = "u" then some (some tokLive) else none,
    scanFiles := [some tokLive] }

/-- Memory tier holding a stale, expired entry for `"u"`, over `diskWithLive`. -/
def stateWithExpired : CacheState :=
  { memory := [("u", tokExpired, 0)], disk := diskWithLive }

/-- Memory tier holding a fresh, live entry for `"u"`. -/
def stateMemLive : CacheState :=
  { memory := [("u", tokLive, 90)], disk := trivialDisk }

/-- A profile name defined in both stores: plain keys in the credentials
store, an SSO start URL in the config store. -/
def envBothStores : AggEnv :=
  { nosso := false,
    credLines := ["[dev]", "aws_access_key_id = AKIA"],
    configLines := ["[profile dev]", "sso_start_url = https://s"],
    availableProfiles := ["dev"],
    nowStr := "2024-01-01 00:00:00",
    now := 0 }

/-- The same stores with the `.nosso` sentinel present. -/
def envNosso : AggEnv := { envBothStores with nosso := true }

/-- The credentials-store record the parser produces for `envBothStores`. -/
def profDevCred : Profile := { emptyProfile "dev" with has_credentials := true }

/-- A non-SSO profile that illegitimately carries an SSO field, as fed to
the handler's cleanup loop. -/
def profLeaky : Profile := { emptyProfile "leak" with sso_start_url := some "https://x" }

/-- A concrete config file for the parse-cache fixtures. -/
def cfgFileV1 : FSFile :=
  { mtime := 1, lines := ["[profile dev]", "sso_start_url = https://s"] }

/-- A filesystem exposing `cfgFileV1` under the path `"config"`. -/
def fsV1 : String → Option FSFile :=
  fun p => if p = "config" then some cfgFileV1 else none

/-- The shape invariant of credentials-store records: never SSO-classified,
never carrying SSO-only fields. -/
def CredShape (p : Profile) : Prop :=
  p.is_sso = false ∧ p.sso_start_url = none ∧ p.sso_session = none ∧
    p.sso_region = none ∧ p.sso_account_id = none ∧ p.sso_role_name = none

/-! # Lemmas about the SSO token cache -/

theorem isTokenValid_iff (t : Token) (now : Int) :
    isTokenValid t now = true ↔ ∃ e, t.expiresAt = some e ∧ now < e := by
  cases h : t.expiresAt <;> simp [isTokenValid, h]

theorem getFromMemory_valid (m : Memory) (u : String) (now : Int) (t : Token)
    (h : (getFromMemory m u now).1 = some t) : isTokenValid t now = true := by
  unfold getFromMemory at h
  split at h
  · simp at h
  · split at h
    · simp at h
    · split at h
      · simp at h
        subst h
        assumption
      · simp at h

theorem getByHash_valid (d : Disk) (u : String) (now : Int) (t : Token)
    (h : getByHash d u now = some t) : isTokenValid t now = true := by
  unfold getByHash at h
  split at h
  · simp at h
  · simp at h
  · split at h
    · simp at h
      subst h
      assumption
    · simp at h

theorem searchCacheFiles_valid (files : List (Option Token)) (u : String)
    (now : Int) (t : Token) (h : searchCacheFiles files u now = some t) :
    isTokenValid t now = true := by
  induction files with
  | nil => simp [searchCacheFiles] at h
  | cons f rest ih =>
    cases f with
    | none => exact ih (by simpa [searchCacheFiles] using h)
    | some tk =>
      unfold searchCacheFiles at h
      split at h
      · split at h
        · simp at h
          subst h
          assumption
        · exact ih h
      · exact ih h

theorem getFromFile_valid (d : Disk) (u : String) (now : Int) (t : Token)
    (h : getFromFile d u now = some t) : isTokenValid t now = true := by
  unfold getFromFile at h
  split at h
  · split at h
    · rename_i t' hh
      have ht : t' = t := by simpa using h
      exact ht ▸ getByHash_valid d u now t' hh
    · exact searchCacheFiles_valid d.scanFiles u now t h
  · simp at h

theorem getToken_fst_valid (s : CacheState) (u : String) (now : Int) (t : Token)
    (h : (getToken s u now).1 = some t) : isTokenValid t now = true := by
  unfold getToken at h
  split at h
  · rename_i t' m' hm
    have ht : t' = t := by simpa using h
    exact ht ▸ getFromMemory_valid s.memory u now t' (by rw [hm])
  · rename_i m' hm
    split at h
    · rename_i t' hf
      have ht : t' = t := by simpa using h
      exact ht ▸ getFromFile_valid s.disk u now t' hf
    · simp at h

theorem memLookup_append (m1 m2 : Memory) (u : String) :
    memLookup (m1 ++ m2) u =
      match memLookup m1 u with
      | some x => some x
      | none => memLookup m2 u := by
  induction m1 with
  | nil => simp [memLookup]
  | cons e rest ih =>
    obtain ⟨k, t, c⟩ := e
    by_cases hk : k = u <;> simp [memLookup, hk, ih]

theorem memLookup_memErase (m : Memory) (u : String) :
    memLookup (memErase m u) u = none := by
  induction m with
  | nil => simp [memErase, memLookup]
  | cons e rest ih =>
    obtain ⟨k, t, c⟩ := e
    by_cases hk : k = u <;> simp [memErase, memLookup, hk, ih]

theorem memLookup_memSave (m : Memory) (u : String) (t : Token) (now : Int) :
    memLookup (memSave m u t now) u = some (t, now) := by
  unfold memSave
  rw [memLookup_append, memLookup_memErase]
  simp [memLookup]

/-- After the memory tier's own lookup, any remaining entry under the url is
a currently valid token. -/
theorem getFromMemory_snd_valid (m : Memory) (u : String) (now : Int)
    (t : Token) (ct : Int)
    (h : memLookup (getFromMemory m u now).2 u = some (t, ct)) :
    isTokenValid t now = true := by
  unfold getFromMemory at h
  split at h
  · rename_i hlk
    simp only [] at h
    rw [hlk] at h
    simp at h
  · rename_i tk ctk hlk
    split at h
    · rw [memLookup_memErase] at h
      simp at h
    · split at h
      · rename_i hvalid
        simp only [] at h
        rw [hlk] at h
        have h2 : tk = t ∧ ctk = ct := by simpa using h
        exact h2.1 ▸ hvalid
      · rw [memLookup_memErase] at h
        simp at h

/-- After `get_token`, every memory entry under the requested url is a
currently valid token: stale and expired entries were evicted, and only a
valid disk token may have been promoted. -/
theorem getToken_memory_valid (s : CacheState) (u : String) (now : Int)
    (t : Token) (ct : Int)
    (h : memLookup (getToken s u now).2.memory u = some (t, ct)) :
    isTokenValid t now = true := by
  unfold getToken at h
  split at h
  · rename_i t' m' hm
    have hm2 : m' = (getFromMemory s.memory u now).2 := by rw [hm]
    simp only [] at h
    rw [hm2] at h
    exact getFromMemory_snd_valid s.memory u now t ct h
  · rename_i m' hm
    have hm2 : m' = (getFromMemory s.memory u now).2 := by rw [hm]
    split at h
    · rename_i t' hf
      simp only [] at h
      rw [memLookup_memSave] at h
      have h2 : t' = t ∧ now = ct := by simpa using h
      exact h2.1 ▸ getFromFile_valid s.disk u now t' hf
    · simp only [] at h
      rw [hm2] at h
      exact getFromMemory_snd_valid s.memory u now t ct h

/-- Claim C4: for every start URL and any cache state (hence after any
sequence of `get_token`/`clear` calls), `get_token` never returns a token
whose `expiresAt` is at or before the current time; an expired memory entry
is evicted (anything left in memory under the url is valid), and each
on-disk lookup path — hashed filename and linear scan — only ever produces
a still-valid token. -/
theorem ssoCache_never_returns_expired (s : CacheState) (u : String) (now : Int) :
    (∀ t, (getToken s u now).1 = some t → ∃ e, t.expiresAt = some e ∧ now < e) ∧
    (∀ t ct, memLookup (getToken s u now).2.memory u = some (t, ct) →
        isTokenValid t now = true) ∧
    (∀ t, getByHash s.disk u now = some t → ∃ e, t.expiresAt = some e ∧ now < e) ∧
    (∀ t, searchCacheFiles s.disk.scanFiles u now = some t →
        ∃ e, t.expiresAt = some e ∧ now < e) := by
  refine ⟨?_, ?_, ?_, ?_⟩
  · intro t h
    exact (isTokenValid_iff t now).mp (getToken_fst_valid s u now t h)
  · intro t ct h
    exact getToken_memory_valid s u now t ct h
  · intro t h
    exact (isTokenValid_iff t now).mp (getByHash_valid s.disk u now t h)
  · intro t h
    exact (isTokenValid_iff t now).mp
      (searchCacheFiles_valid s.disk.scanFiles u now t h)

/-- Witness for C4: a stale expired memory entry is evicted and the live
disk token (found by hash and by scan) is the one returned and promoted. -/
theorem ssoCache_never_returns_expired_ev :
    (∃ e, tokLive.expiresAt = some e ∧ (100 : Int) < e) ∧
    isTokenValid tokLive 100 = true ∧
    (∃ e, tokLive.expiresAt = some e ∧ (100 : Int) < e) ∧
    (∃ e, tokLive.expiresAt = some e ∧ (100 : Int) < e) := by
  refine ⟨?_, ?_, ?_, ?_⟩
  · exact (ssoCache_never_returns_expired stateWithExpired "u" 100).1 tokLive
      (by decide)
  · exact (ssoCache_never_returns_expired stateWithExpired "u" 100).2.1 tokLive 100
      (by decide)
  · exact (ssoCache_never_returns_expired stateWithExpired "u" 100).2.2.1 tokLive
      (by decide)
  · exact (ssoCache_never_returns_expired stateWithExpired "u" 100).2.2.2 tokLive
      (by decide)

/-- Claim C9: `clear()` empties every entry of the in-process memory tier
and nothing else — the disk tier is untouched by `clear` and by `get_token`
(the component's only disk accesses are reads, which leave `disk` intact in
the resulting state). -/
theorem ssoCache_clear_only_memory (s : CacheState) (u : String) (now : Int) :
    (cacheClear s).memory = [] ∧ (cacheClear s).disk = s.disk ∧
    (getToken s u now).2.disk = s.disk := by
  refine ⟨rfl, rfl, ?_⟩
  unfold getToken
  rcases hg : getFromMemory s.memory u now with ⟨mt, m'⟩
  cases mt
  · split
    · rfl
    · split <;> rfl
  · rfl

/-- Claim C10: a payload lacking `expiresAt` is never returned by
`get_token`, from either tier: every returned token has the field. -/
theorem ssoCache_requires_expiresAt (s : CacheState) (u : String) (now : Int)
    (t : Token) (h : (getToken s u now).1 = some t) :
    t.expiresAt.isSome = true := by
  obtain ⟨e, he, _⟩ :=
    (isTokenValid_iff t now).mp (getToken_fst_valid s u now t h)
  simp [he]

/-- Witness for C10: the token returned from a fresh live memory entry
carries its `expiresAt`. -/
theorem ssoCache_requires_expiresAt_ev : tokLive.expiresAt.isSome = true :=
  ssoCache_requires_expiresAt stateMemLive "u" 100 tokLive (by decide)

/-! # Lemmas about the console URL cache -/

theorem urlSearch_upsert_map (e : CacheEntry) :
    ∀ db : UrlDB, db.any (fun q => q.name = e.name) = true →
      (urlSearch (db.map fun q => if q.name = e.name then e else q)
        e.name).head? = some e := by
  intro db
  induction db with
  | nil => simp
  | cons b rest ih =>
    intro h
    by_cases hb : b.name = e.name
    · simp [urlSearch, hb]
    · have h2 : rest.any (fun q => q.name = e.name) = true := by
        simpa [hb] using h
      simpa [urlSearch, hb] using ih h2

theorem urlSearch_upsert_head (db : UrlDB) (e : CacheEntry) :
    (urlSearch (urlUpsert db e) e.name).head? = some e := by
  unfold urlUpsert
  by_cases h : db.any (fun q => q.name = e.name)
  · rw [if_pos h]
    exact urlSearch_upsert_map e db h
  · rw [if_neg h]
    have hnone : List.filter (fun q => q.name = e.name) db = [] := by
      rw [List.filter_eq_nil_iff]
      intro a ha
      simp only [List.any_eq_true] at h
      push_neg at h
      simpa using h a ha
    simp [urlSearch, List.filter_append, hnone]

theorem urlSearch_urlRemove (db : UrlDB) (n : String) :
    urlSearch (urlRemove db n) n = [] := by
  induction db with
  | nil => rfl
  | cons b rest ih =>
    simp only [urlSearch, urlRemove] at ih ⊢
    by_cases hb : b.name = n <;> simp [hb, List.filter_cons, ih]

/-- Claim C1 (counterexample): with a credential expiry 50000 known at
cache-set time 0, the entry does not get TTL `min(default, expiry)`; at
time 45000 — past the claimed minimum `min(0 + 43200, 50000) = 43200` — the
cached URL is still returned. -/
theorem urlCache_min_ttl_cex :
    (urlCacheGet (urlCacheSet [] "p" "https://u" (some 50000) 0) "p"
        (some 50000) 45000).1 = some "https://u" ∧
    min (0 + CONSOLE_DEFAULT_TTL) 50000 < 45000 := by
  refine ⟨by decide, by decide⟩

/-- Claim C1 (amended): the stored entry expires exactly at the credential
expiry when one is known, and otherwise at cache time plus the fixed default
TTL; `get` never returns the URL once that time has passed. -/
theorem urlCache_ttl_amended (db : UrlDB) (n u : String) (ce cur : Option Int)
    (now t : Int) (h : setExpiresAt ce now < t) :
    ((urlSearch (urlCacheSet db n u ce now) n).head?.map CacheEntry.expires_at =
      some (setExpiresAt ce now)) ∧
    (urlCacheGet (urlCacheSet db n u ce now) n cur t).1 = none := by
  have hhead : (urlSearch (urlCacheSet db n u ce now) n).head? =
      some { name := n, url := u, expires_at := setExpiresAt ce now,
             cached_at := now, credential_expiry := ce } :=
    urlSearch_upsert_head db
      { name := n, url := u, expires_at := setExpiresAt ce now,
        cached_at := now, credential_expiry := ce }
  constructor
  · rw [hhead]
    rfl
  · cases hs : urlSearch (urlCacheSet db n u ce now) n with
    | nil =>
      rw [hs] at hhead
      simp at hhead
    | cons a rest =>
      have ha : a =
          { name := n, url := u, expires_at := setExpiresAt ce now,
            cached_at := now, credential_expiry := ce } := by
        rw [hs] at hhead
        simpa using hhead
      unfold urlCacheGet
      rw [hs, ha]
      split
      · rfl
      · rename_i entry tail heq
        have h1 : entry =
            { name := n, url := u, expires_at := setExpiresAt ce now,
              cached_at := now, credential_expiry := ce } := by
          injection heq with hx hy
          exact hx.symm
        rw [h1]
        by_cases hm : expiryMismatch cur ce = true
        · simp [hm]
        · simp [hm, h]

/-- Witness for the amended C1. -/
theorem urlCache_ttl_amended_ev :
    ((urlSearch (urlCacheSet [] "p" "https://u" (some 50) 0) "p").head?.map
        CacheEntry.expires_at = some 50) ∧
    (urlCacheGet (urlCacheSet [] "p" "https://u" (some 50) 0) "p" none 60).1 =
      none :=
  urlCache_ttl_amended [] "p" "https://u" (some 50) none 0 60 (by decide)

/-- Claim C3: a cached URL stored with a recorded credential expiry is
discarded — lookup misses and the entry is removed — as soon as the expiry
observed on the current request is present and differs. -/
theorem urlCache_rotation_invalidates (db : UrlDB) (n u : String)
    (r c now t : Int) (h : ¬ c = r) :
    urlCacheGet (urlCacheSet db n u (some r) now) n (some c) t =
      (none, urlRemove (urlCacheSet db n u (some r) now) n) ∧
    urlSearch (urlRemove (urlCacheSet db n u (some r) now) n) n = [] := by
  refine ⟨?_, urlSearch_urlRemove _ n⟩
  have hhead : (urlSearch (urlCacheSet db n u (some r) now) n).head? =
      some { name := n, url := u, expires_at := r, cached_at := now,
             credential_expiry := some r } :=
    urlSearch_upsert_head db
      { name := n, url := u, expires_at := r, cached_at := now,
        credential_expiry := some r }
  cases hs : urlSearch (urlCacheSet db n u (some r) now) n with
  | nil =>
    rw [hs] at hhead
    simp at hhead
  | cons a rest =>
    have ha : a =
        { name := n, url := u, expires_at := r, cached_at := now,
          credential_expiry := some r } := by
      rw [hs] at hhead
      simpa using hhead
    unfold urlCacheGet
    rw [hs, ha]
    split
    · rename_i heq
      exact absurd heq (by simp)
    · rename_i entry tail heq
      have h1 : entry =
          { name := n, url := u, expires_at := r, cached_at := now,
            credential_expiry := some r } := by
        injection heq with hx hy
        exact hx.symm
      rw [h1]
      simp [expiryMismatch, h]

/-- Witness for C3. -/
theorem urlCache_rotation_invalidates_ev :
    urlCacheGet (urlCacheSet [] "p" "https://u" (some 40) 0) "p" (some 99) 10 =
      (none, urlRemove (urlCacheSet [] "p" "https://u" (some 40) 0) "p") ∧
    urlSearch (urlRemove (urlCacheSet [] "p" "https://u" (some 40) 0) "p") "p" =
      [] :=
  urlCache_rotation_invalidates [] "p" "https://u" 40 99 0 10 (by decide)

/-! # The handler's output cleanup -/

/-- Claim C7: in the profile lists the handler returns for `getProfiles`
and stores for `refreshCache`, a profile with `is_sso` false carries none of
the SSO-only fields — whatever the aggregator produced and whatever the
metadata provider did to the record before the cleanup loop. -/
theorem handler_no_sso_fields_on_non_sso (metadataEnrich : Profile → Profile)
    (aggregated : List Profile) (p : Profile)
    (hp : p ∈ handleGetProfilesOut metadataEnrich aggregated ∨
          p ∈ handleRefreshCacheOut metadataEnrich aggregated)
    (hs : p.is_sso = false) :
    p.sso_start_url = none ∧ p.sso_session = none ∧ p.sso_region = none ∧
      p.sso_account_id = none ∧ p.sso_role_name = none := by
  have hmem : p ∈ aggregated.map (fun q => cleanupProfile (metadataEnrich q)) := by
    cases hp with
    | inl h => exact h
    | inr h => exact h
  simp only [List.mem_map] at hmem
  obtain ⟨q, _, hpq⟩ := hmem
  subst hpq
  by_cases hsso : (metadataEnrich q).is_sso
  · rw [cleanupProfile, if_pos hsso] at hs
    exact absurd hsso (by simp [hs])
  · rw [cleanupProfile, if_neg hsso]
    exact ⟨rfl, rfl, rfl, rfl, rfl⟩

/-- Witness for C7: a non-SSO profile that entered the handler with a stray
`sso_start_url` leaves it with every SSO-only field absent. -/
theorem handler_no_sso_fields_on_non_sso_ev :
    (cleanupProfile (id profLeaky)).sso_start_url = none ∧
    (cleanupProfile (id profLeaky)).sso_session = none ∧
    (cleanupProfile (id profLeaky)).sso_region = none ∧
    (cleanupProfile (id profLeaky)).sso_account_id = none ∧
    (cleanupProfile (id profLeaky)).sso_role_name = none :=
  handler_no_sso_fields_on_non_sso id [profLeaky] (cleanupProfile (id profLeaky))
    (Or.inl (by decide)) (by decide)

/-! # The mtime-keyed file-parse cache -/

theorem dictGet_map_set {α : Type} (k : String) (v : α) :
    ∀ m : List (String × α), m.any (fun kv => kv.1 = k) = true →
      dictGet (m.map fun kv => if kv.1 = k then (k, v) else kv) k = some v := by
  intro m
  induction m with
  | nil => simp
  | cons b rest ih =>
    intro h
    by_cases hb : b.1 = k
    · simp [dictGet, List.find?, hb]
    · have h2 : rest.any (fun kv => kv.1 = k) = true := by simpa [hb] using h
      simpa [dictGet, List.find?, hb] using ih h2

theorem dictGet_dictSet_self {α : Type} (m : List (String × α)) (k : String)
    (v : α) : dictGet (dictSet m k v) k = some v := by
  unfold dictSet
  by_cases h : m.any (fun kv => kv.1 = k)
  · rw [if_pos h]
    exact dictGet_map_set k v m h
  · rw [if_neg h]
    induction m with
    | nil => simp [dictGet, List.find?]
    | cons b rest ih =>
      have hb : ¬ b.1 = k := by
        intro hbk
        exact h (by simp [List.any_cons, hbk])
      have h2 : ¬ rest.any (fun kv => kv.1 = k) = true := by
        intro h2
        exact h (by simp [List.any_cons, h2])
      simpa [dictGet, List.find?, hb] using ih h2

theorem fileCacheGet_after_set (cache : ParseCache)
    (fs : String → Option FSFile) (path : String) (f : FSFile)
    (data : List Profile) (hf : fs path = some f) :
    fileCacheGet (fileCacheSet cache fs path data) fs path = some data := by
  unfold fileCacheGet fileCacheSet
  rw [hf, dictGet_dictSet_self]
  simp

/-- Claim C8: with the file unchanged, a second `parse` returns the first
call's list straight from the cache without reading the file's contents;
and a cached entry whose recorded mtime mismatches the file's current one
causes a full re-parse whose result replaces the cache entry. -/
theorem parse_mtime_cache (pf : List String → List Profile)
    (fs : String → Option FSFile) (path : String) (cache cache2 : ParseCache)
    (f : FSFile) (m : Int) (d : List Profile)
    (hf : fs path = some f)
    (hm : dictGet cache2 path = some (m, d))
    (hne : ¬ m = f.mtime) :
    ((parseCached pf fs path (parseCached pf fs path cache).2.1).1 =
        (parseCached pf fs path cache).1 ∧
      (parseCached pf fs path (parseCached pf fs path cache).2.1).2.2 = false) ∧
    parseCached pf fs path cache2 =
      (pf f.lines, dictSet cache2 path (f.mtime, pf f.lines), true) := by
  constructor
  · cases hg : fileCacheGet cache fs path with
    | some d0 =>
      have h1 : parseCached pf fs path cache = (d0, cache, false) := by
        unfold parseCached
        rw [hg]
      rw [h1, h1]
      exact ⟨rfl, rfl⟩
    | none =>
      have h1 : parseCached pf fs path cache =
          (pf f.lines, fileCacheSet cache fs path (pf f.lines), true) := by
        unfold parseCached
        rw [hg, hf]
      have h2 : parseCached pf fs path (fileCacheSet cache fs path (pf f.lines)) =
          (pf f.lines, fileCacheSet cache fs path (pf f.lines), false) := by
        unfold parseCached
        rw [fileCacheGet_after_set cache fs path f (pf f.lines) hf]
      rw [h1, h2]
      exact ⟨rfl, rfl⟩
  · have hg2 : fileCacheGet cache2 fs path = none := by
      unfold fileCacheGet
      rw [hf, hm]
      simp [hne]
    unfold parseCached
    rw [hg2, hf]
    unfold fileCacheSet
    rw [hf]

/-- Witness for C8, over the config-store parser and a one-file system. -/
theorem parse_mtime_cache_ev :
    ((parseCached configParse fsV1 "config"
          (parseCached configParse fsV1 "config" []).2.1).1 =
        (parseCached configParse fsV1 "config" []).1 ∧
      (parseCached configParse fsV1 "config"
          (parseCached configParse fsV1 "config" []).2.1).2.2 = false) ∧
    parseCached configParse fsV1 "config" [("config", (0, []))] =
      (configParse cfgFileV1.lines,
        dictSet [("config", (0, []))] "config" (cfgFileV1.mtime, configParse cfgFileV1.lines),
        true) :=
  parse_mtime_cache configParse fsV1 "config" [] [("config", (0, []))]
    cfgFileV1 0 [] (by decide) (by decide) (by decide)

/-! # Parser invariants -/

theorem parseLines_inv (ops : ParserOps) (P : Profile → Prop)
    (hc : ∀ nm, P (ops.create nm))
    (hl : ∀ line p, P p → P (ops.parseLine line p)) :
    ∀ (lines : List String) (cur : Option String) (data : Profile),
      P data → ∀ p ∈ parseLines ops lines cur data, P p := by
  intro lines
  induction lines with
  | nil =>
    intro cur data hd p hp
    unfold parseLines at hp
    split at hp
    · simp at hp
      exact hp ▸ hd
    · simp at hp
  | cons l rest ih =>
    intro cur data hd p hp
    unfold parseLines at hp
    split at hp
    · rw [List.mem_append] at hp
      cases hp with
      | inl hmem =>
        split at hmem
        · simp at hmem
          exact hmem ▸ hd
        · simp at hmem
      | inr hmem => exact ih _ _ (hc _) p hmem
    · split at hp
      · exact ih _ _ (hl _ _ hd) p hp
      · exact ih _ _ hd p hp

theorem parseLines_mem_shouldInclude (ops : ParserOps) :
    ∀ (lines : List String) (cur : Option String) (data : Profile),
      ∀ p ∈ parseLines ops lines cur data, ops.shouldInclude p = true := by
  intro lines
  induction lines with
  | nil =>
    intro cur data p hp
    unfold parseLines at hp
    split at hp
    · rename_i hcond
      simp at hp
      simp only [Bool.and_eq_true] at hcond
      exact hp ▸ hcond.2
    · simp at hp
  | cons l rest ih =>
    intro cur data p hp
    unfold parseLines at hp
    split at hp
    · rw [List.mem_append] at hp
      cases hp with
      | inl hmem =>
        split at hmem
        · rename_i hcond
          simp at hmem
          simp only [Bool.and_eq_true] at hcond
          exact hmem ▸ hcond.2
        · simp at hmem
      | inr hmem => exact ih _ _ p hmem
    · split at hp
      · exact ih _ _ p hp
      · exact ih _ _ p hp

/-- Every profile the config parser emits is SSO-classified. -/
theorem configParse_is_sso (lines : List String) :
    ∀ p ∈ configParse lines, p.is_sso = true :=
  fun p hp => parseLines_mem_shouldInclude configOps lines none (emptyProfile "") p hp

theorem credParseLine_shape (nowStr line : String) (p : Profile)
    (hp : CredShape p) : CredShape (credParseLine nowStr line p) := by
  unfold credParseLine
  split
  · split
    · exact hp
    · exact hp
  · split
    · split
      · split
        · exact hp
        · exact hp
      · exact hp
    · exact hp

theorem credentialsParse_shape (nowStr : String) (lines : List String) :
    ∀ p ∈ credentialsParse nowStr lines, CredShape p := by
  intro p hp
  refine parseLines_inv (credOps nowStr) CredShape ?_ ?_ lines none
    (emptyProfile "") ?_ p hp
  · intro nm
    exact ⟨rfl, rfl, rfl, rfl, rfl, rfl⟩
  · intro line q hq
    exact credParseLine_shape nowStr line q hq
  · exact ⟨rfl, rfl, rfl, rfl, rfl, rfl⟩

/-! # Last-wins lookup and the merge dict -/

theorem lookupLastProfile_none (ps : List Profile) (n : String)
    (h : lookupLastProfile ps n = none) : ∀ p ∈ ps, ¬ p.name = n := by
  induction ps with
  | nil => simp
  | cons p rest ih =>
    intro q hq
    unfold lookupLastProfile at h
    split at h
    · simp at h
    · rename_i hrest
      cases hq with
      | head =>
        intro hn
        rw [if_pos hn] at h
        simp at h
      | tail _ hmem => exact ih hrest q hmem

theorem lookupLastProfile_mem (ps : List Profile) (n : String) (q : Profile)
    (h : lookupLastProfile ps n = some q) : q ∈ ps ∧ q.name = n := by
  induction ps with
  | nil => simp [lookupLastProfile] at h
  | cons p rest ih =>
    unfold lookupLastProfile at h
    split at h
    · rename_i q0 hrest
      have hq0 : q0 = q := by simpa using h
      obtain ⟨hm, hn⟩ := ih (hq0 ▸ hrest)
      exact ⟨List.mem_cons_of_mem p hm, hn⟩
    · split at h
      · rename_i hn
        have : p = q := by simpa using h
        exact ⟨this ▸ List.mem_cons_self p rest, this ▸ hn⟩
      · simp at h

theorem any_lookupLastProfile (ps : List Profile) (n : String)
    (h : ps.any (fun p => p.name = n) = true) :
    ∃ q, lookupLastProfile ps n = some q := by
  induction ps with
  | nil => simp at h
  | cons p rest ih =>
    unfold lookupLastProfile
    cases hrest : lookupLastProfile rest n with
    | some q => exact ⟨q, rfl⟩
    | none =>
      have hnp : ∀ x ∈ rest, ¬ x.name = n := lookupLastProfile_none rest n hrest
      have hpn : p.name = n := by
        simp only [List.any_cons, Bool.or_eq_true, List.any_eq_true] at h
        rcases h with h | ⟨x, hx, hxn⟩
        · simpa using h
        · exact absurd (by simpa using hxn) (hnp x hx)
      exact ⟨p, by simp [hpn]⟩

theorem lookupLastProfile_append (a b : List Profile) (n : String)
    (q : Profile) (h : lookupLastProfile b n = some q) :
    lookupLastProfile (a ++ b) n = some q := by
  induction a with
  | nil => simpa using h
  | cons p rest ih => simp [lookupLastProfile, ih]

theorem profDictInsert_find_self (acc : List Profile) (p : Profile) :
    (profDictInsert acc p).find? (fun q => q.name = p.name) = some p := by
  unfold profDictInsert
  by_cases h : acc.any (fun q => q.name = p.name)
  · rw [if_pos h]
    induction acc with
    | nil => simp at h
    | cons b rest ih =>
      by_cases hb : b.name = p.name
      · simp [List.find?, hb]
      · have h2 : rest.any (fun q => q.name = p.name) = true := by
          simpa [hb] using h
        simpa [List.find?, hb] using ih h2
  · rw [if_neg h]
    induction acc with
    | nil => simp [List.find?]
    | cons b rest ih =>
      have hb : ¬ b.name = p.name := by
        intro hbk
        exact h (by simp [List.any_cons, hbk])
      have h2 : ¬ rest.any (fun q => q.name = p.name) = true := by
        intro h2
        exact h (by simp [List.any_cons, h2])
      simpa [List.find?, hb] using ih h2

theorem find?_map_set_other (p : Profile) (n : String) (hn : ¬ p.name = n) :
    ∀ acc : List Profile,
      (acc.map fun q => if q.name = p.name then p else q).find?
          (fun q => q.name = n) =
        acc.find? (fun q => q.name = n) := by
  intro acc
  induction acc with
  | nil => simp
  | cons b rest ih =>
    by_cases hb : b.name = p.name
    · have hbn : ¬ b.name = n := by
        rw [hb]
        exact hn
      simp only [List.map_cons, List.find?, hb, if_pos]
      rw [show (decide (p.name = n)) = false by simp [hn]]
      exact ih
    · simp only [List.map_cons]
      rw [if_neg hb]
      by_cases hbn : b.name = n
      · simp [List.find?, hbn]
      · simp only [List.find?]
        rw [show (decide (b.name = n)) = false by simp [hbn]]
        exact ih

theorem find?_append_single_other (p : Profile) (n : String)
    (hn : ¬ p.name = n) :
    ∀ acc : List Profile,
      (acc ++ [p]).find? (fun q => q.name = n) =
        acc.find? (fun q => q.name = n) := by
  intro acc
  induction acc with
  | nil => simp [List.find?, hn]
  | cons b rest ih =>
    by_cases hbn : b.name = n
    · simp [List.find?, hbn]
    · simp only [List.cons_append, List.find?]
      rw [show (decide (b.name = n)) = false by simp [hbn]]
      exact ih

theorem profDictInsert_find_other (acc : List Profile) (p : Profile)
    (n : String) (hn : ¬ p.name = n) :
    (profDictInsert acc p).find? (fun q => q.name = n) =
      acc.find? (fun q => q.name = n) := by
  unfold profDictInsert
  by_cases h : acc.any (fun q => q.name = p.name)
  · rw [if_pos h]
    exact find?_map_set_other p n hn acc
  · rw [if_neg h]
    exact find?_append_single_other p n hn acc

theorem foldl_insert_find_frame (n : String) :
    ∀ (ps : List Profile) (acc : List Profile), (∀ q ∈ ps, ¬ q.name = n) →
      (ps.foldl profDictInsert acc).find? (fun q => q.name = n) =
        acc.find? (fun q => q.name = n) := by
  intro ps
  induction ps with
  | nil => intro acc _; rfl
  | cons p rest ih =>
    intro acc hall
    simp only [List.foldl_cons]
    rw [ih (profDictInsert acc p)
      (fun q hq => hall q (List.mem_cons_of_mem p hq))]
    exact profDictInsert_find_other acc p n (hall p (List.mem_cons_self p rest))

theorem foldl_insert_find (n : String) :
    ∀ (ps : List Profile) (acc : List Profile) (q : Profile),
      lookupLastProfile ps n = some q →
      (ps.foldl profDictInsert acc).find? (fun x => x.name = n) = some q := by
  intro ps
  induction ps with
  | nil =>
    intro acc q h
    simp [lookupLastProfile] at h
  | cons p rest ih =>
    intro acc q h
    unfold lookupLastProfile at h
    simp only [List.foldl_cons]
    split at h
    · rename_i q0 hrest
      have hq0 : q0 = q := by simpa using h
      exact ih (profDictInsert acc p) q (hq0 ▸ hrest)
    · rename_i hrest
      split at h
      · rename_i hpn
        have hpq : p = q := by simpa using h
        subst hpq
        rw [foldl_insert_find_frame n rest (profDictInsert acc p)
          (lookupLastProfile_none rest n hrest)]
        rw [← hpn]
        exact profDictInsert_find_self acc p
      · simp at h

/-! # The `.nosso` sentinel -/

theorem buildProfileInfo_nosso (env : AggEnv) (skipE : Bool) (st : CacheState)
    (nm : String) (p : Profile) (st1 : CacheState) (h : env.nosso = true)
    (hb : buildProfileInfo env skipE st nm = (some p, st1)) :
    p.is_sso = false ∧ p.sso_start_url = none ∧ p.sso_session = none := by
  unfold buildProfileInfo at hb
  split at hb
  · split at hb
    · rw [show shouldSkipSso env = true from h] at hb
      simp at hb
    · have hp : credBackedProfile env nm = p := by
        have h1 := congrArg Prod.fst hb
        simpa using h1
      rw [← hp]
      unfold credBackedProfile
      split
      · exact ⟨rfl, rfl, rfl⟩
      · exact ⟨rfl, rfl, rfl⟩
  · have hp : credBackedProfile env nm = p := by
      have h1 := congrArg Prod.fst hb
      simpa using h1
    rw [← hp]
    unfold credBackedProfile
    split
    · exact ⟨rfl, rfl, rfl⟩
    · exact ⟨rfl, rfl, rfl⟩

theorem buildAllProfiles_nosso (env : AggEnv) (skipE : Bool)
    (h : env.nosso = true) :
    ∀ (names : List String) (st : CacheState) (p : Profile),
      p ∈ (buildAllProfiles env skipE names st).1 →
      p.is_sso = false ∧ p.sso_start_url = none ∧ p.sso_session = none := by
  intro names
  induction names with
  | nil =>
    intro st p hp
    simp [buildAllProfiles] at hp
  | cons nm ns ih =>
    intro st p hp
    unfold buildAllProfiles at hp
    rcases hbi : buildProfileInfo env skipE st nm with ⟨op, st1⟩
    rw [hbi] at hp
    cases op with
    | some p0 =>
      simp only [List.mem_cons] at hp
      cases hp with
      | inl hph => exact hph ▸ buildProfileInfo_nosso env skipE st nm p0 st1 h hbi
      | inr hpt => exact ih st1 p hpt
    | none => exact ih st1 p hp

theorem credentialsParse_not_sso (nowStr : String) (lines : List String)
    (p : Profile) (hp : p ∈ credentialsParse nowStr lines) :
    p.is_sso = false ∧ p.sso_start_url = none ∧ p.sso_session = none := by
  obtain ⟨h1, h2, h3, _⟩ := credentialsParse_shape nowStr lines p hp
  exact ⟨h1, h2, h3⟩

/-- Claim C6: with the `.nosso` sentinel present, `get_all_profiles` — at
either enrichment depth and on both enumeration paths — returns no profile
carrying SSO markers, even when the config store defines SSO sections. -/
theorem nosso_disables_sso (env : AggEnv) (b skipE : Bool) (st : CacheState)
    (h : env.nosso = true) :
    ∀ p ∈ (getAllProfiles env b skipE st).1,
      p.is_sso = false ∧ p.sso_start_url = none ∧ p.sso_session = none := by
  intro p hp
  unfold getAllProfiles at hp
  cases b with
  | true =>
    rw [if_pos rfl] at hp
    exact buildAllProfiles_nosso env skipE h env.availableProfiles st p hp
  | false =>
    rw [if_neg (by simp)] at hp
    unfold getProfilesManual at hp
    rw [show shouldSkipSso env = true from h] at hp
    rw [if_pos rfl] at hp
    exact credentialsParse_not_sso env.nowStr env.credLines p hp

/-- Witness for C6: with the sentinel present and an SSO section defined in
the config store, the manual enumeration yields only the non-SSO
credentials-store record. -/
theorem nosso_disables_sso_ev :
    profDevCred.is_sso = false ∧ profDevCred.sso_start_url = none ∧
      profDevCred.sso_session = none :=
  nosso_disables_sso envNosso false false emptyCache rfl profDevCred (by decide)

theorem profDictInsert_countP (acc : List Profile) (p : Profile) (n : String) :
    (profDictInsert acc p).countP (fun q => q.name = n) =
      if acc.any (fun q => q.name = p.name) then
        acc.countP (fun q => q.name = n)
      else acc.countP (fun q => q.name = n) + (if p.name = n then 1 else 0) := by
  unfold profDictInsert
  by_cases h : acc.any (fun q => q.name = p.name)
  · rw [if_pos h, if_pos h, List.countP_map]
    apply List.countP_congr
    intro q _
    by_cases hq : q.name = p.name
    · simp [Function.comp, hq]
    · simp [Function.comp, hq]
  · rw [if_neg h, if_neg h, List.countP_append]
    congr 1
    by_cases hpn : p.name = n <;> simp [List.countP, List.countP.go, hpn]

theorem foldl_insert_countP (n : String) :
    ∀ (ps : List Profile) (acc : List Profile),
      acc.countP (fun q => q.name = n) ≤ 1 →
      ((ps.foldl profDictInsert acc).countP (fun q => q.name = n) ≤ 1 ∧
       ((ps.any (fun p => p.name = n) = true ∨
           acc.countP (fun q => q.name = n) = 1) →
         (ps.foldl profDictInsert acc).countP (fun q => q.name = n) = 1)) := by
  intro ps
  induction ps with
  | nil =>
    intro acc h1
    refine ⟨h1, ?_⟩
    intro hd
    cases hd with
    | inl h => simp at h
    | inr h => exact h
  | cons p rest ih =>
    intro acc h1
    simp only [List.foldl_cons]
    have hins := profDictInsert_countP acc p n
    by_cases hany : acc.any (fun q => q.name = p.name)
    · rw [if_pos hany] at hins
      have hle : (profDictInsert acc p).countP (fun q => q.name = n) ≤ 1 := by
        rw [hins]; exact h1
      refine ⟨(ih _ hle).1, ?_⟩
      intro hd
      apply (ih _ hle).2
      cases hd with
      | inl hd =>
        simp only [List.any_cons, Bool.or_eq_true] at hd
        cases hd with
        | inl hpn =>
          -- the accumulator already holds an entry with this name
          right
          rw [hins]
          have hpn' : p.name = n := by simpa using hpn
          have hpos : 0 < acc.countP (fun q => q.name = n) := by
            rw [List.countP_pos_iff]
            simp only [List.any_eq_true] at hany
            obtain ⟨x, hx, hxn⟩ := hany
            exact ⟨x, hx, by simp at hxn ⊢; rw [hxn, hpn']⟩
          exact Nat.le_antisymm h1 hpos
        | inr hrest => left; exact hrest
      | inr hacc =>
        right
        rw [hins]
        exact hacc
    · rw [if_neg hany] at hins
      by_cases hpn : p.name = n
      · have hz : acc.countP (fun q => q.name = n) = 0 := by
          rw [List.countP_eq_zero]
          intro q hq
          simp only [decide_eq_true_eq]
          intro hqn
          apply hany
          simp only [List.any_eq_true]
          exact ⟨q, hq, by simp [hqn, hpn]⟩
        have hone : (profDictInsert acc p).countP (fun q => q.name = n) = 1 := by
          rw [hins, hz, if_pos hpn]
        refine ⟨(ih _ (by rw [hone])).1, ?_⟩
        intro _
        exact (ih _ (by rw [hone])).2 (Or.inr hone)
      · have heq : (profDictInsert acc p).countP (fun q => q.name = n) =
            acc.countP (fun q => q.name = n) := by
          rw [hins, if_neg hpn]
          simp
        refine ⟨(ih _ (by rw [heq]; exact h1)).1, ?_⟩
        intro hd
        apply (ih _ (by rw [heq]; exact h1)).2
        cases hd with
        | inl hd =>
          simp only [List.any_cons, Bool.or_eq_true] at hd
          cases hd with
          | inl hp => exact absurd (by simpa using hp) hpn
          | inr hrest => left; exact hrest
        | inr hacc =>
          right
          rw [heq]
          exact hacc

/-- Claim C2: a resolved credential with access key id and secret but no
session token yields the generic console landing URL, and the federation
exchange is not invoked (regardless of what the exchange would return). -/
theorem generateUrl_no_session_token (g : Generator) (tok : Option String)
    (c : Credentials) (h1 : truthy c.aws_access_key_id = true)
    (h2 : truthy c.aws_secret_access_key = true)
    (h3 : truthy c.aws_session_token = false) :
    generateUrl g tok c = (GenResult.url g.console_url, false) := by
  simp [generateUrl, validateCredentials, h1, h2, h3]

/-- Witness for C2. -/
theorem generateUrl_no_session_token_ev :
    generateUrl defaultGenerator (some "T")
      { aws_access_key_id := some "AKIAEXAMPLE",
        aws_secret_access_key := some "secretkey",
        aws_session_token := none } =
      (GenResult.url defaultGenerator.console_url, false) :=
  generateUrl_no_session_token defaultGenerator (some "T")
    { aws_access_key_id := some "AKIAEXAMPLE",
      aws_secret_access_key := some "secretkey",
      aws_session_token := none } (by decide) (by decide) (by decide)

/-! # Enrichment preserves the merge-relevant fields -/

theorem enrichProfile_fields (st : CacheState) (now : Int) (p : Profile) :
    ((enrichProfile st now p).1).name = p.name ∧
    ((enrichProfile st now p).1).is_sso = p.is_sso ∧
    ((enrichProfile st now p).1).sso_start_url = p.sso_start_url ∧
    ((enrichProfile st now p).1).sso_session = p.sso_session ∧
    ((enrichProfile st now p).1).sso_region = p.sso_region ∧
    ((enrichProfile st now p).1).sso_account_id = p.sso_account_id ∧
    ((enrichProfile st now p).1).sso_role_name = p.sso_role_name := by
  unfold enrichProfile
  split
  · exact ⟨rfl, rfl, rfl, rfl, rfl, rfl, rfl⟩
  · split
    · split
      · exact ⟨rfl, rfl, rfl, rfl, rfl, rfl, rfl⟩
      · exact ⟨rfl, rfl, rfl, rfl, rfl, rfl, rfl⟩
    · exact ⟨rfl, rfl, rfl, rfl, rfl, rfl, rfl⟩

theorem mapEnrich_lookupLast_none (now : Int) (n : String) :
    ∀ (ps : List Profile) (st : CacheState),
      lookupLastProfile ps n = none →
      lookupLastProfile (mapEnrich now st ps).1 n = none := by
  intro ps
  induction ps with
  | nil => intro st _; rfl
  | cons p rest ih =>
    intro st h
    unfold lookupLastProfile at h
    split at h
    · simp at h
    · rename_i hrest
      have hpn : ¬ p.name = n := by
        intro hn
        rw [if_pos hn] at h
        simp at h
      unfold mapEnrich lookupLastProfile
      rw [ih (enrichProfile st now p).2 hrest]
      rw [if_neg (by rw [(enrichProfile_fields st now p).1]; exact hpn)]

theorem mapEnrich_lookupLast_some (now : Int) (n : String) :
    ∀ (ps : List Profile) (st : CacheState) (q : Profile),
      lookupLastProfile ps n = some q →
      ∃ q2, lookupLastProfile (mapEnrich now st ps).1 n = some q2 ∧
        q2.name = q.name ∧ q2.is_sso = q.is_sso ∧
        q2.sso_start_url = q.sso_start_url ∧ q2.sso_session = q.sso_session ∧
        q2.sso_region = q.sso_region ∧ q2.sso_account_id = q.sso_account_id ∧
        q2.sso_role_name = q.sso_role_name := by
  intro ps
  induction ps with
  | nil =>
    intro st q h
    simp [lookupLastProfile] at h
  | cons p rest ih =>
    intro st q h
    unfold lookupLastProfile at h
    split at h
    · rename_i q0 hrest
      have hq0 : q0 = q := by simpa using h
      obtain ⟨q2, hq2, hf⟩ := ih (enrichProfile st now p).2 q (hq0 ▸ hrest)
      refine ⟨q2, ?_, hf⟩
      unfold mapEnrich lookupLastProfile
      rw [hq2]
    · rename_i hrest
      split at h
      · rename_i hpn
        have hpq : p = q := by simpa using h
        subst hpq
        obtain ⟨f1, f2, f3, f4, f5, f6, f7⟩ := enrichProfile_fields st now p
        refine ⟨(enrichProfile st now p).1, ?_, f1, f2, f3, f4, f5, f6, f7⟩
        unfold mapEnrich lookupLastProfile
        rw [mapEnrich_lookupLast_none now n rest (enrichProfile st now p).2 hrest]
        rw [if_pos (by rw [f1]; exact hpn)]
      · simp at h

/-! # Manual aggregation: config-store precedence -/

/-- Claim C5: a name present in both stores (plain keys in the credentials
store, SSO markers in the config store) aggregates — absent the `.nosso`
sentinel, whose escape hatch is specified separately — to exactly one
profile, the config-store record: SSO-classified with the config record's
SSO fields, at either enrichment depth. -/
theorem manual_aggregation_sso_precedence (env : AggEnv) (skipE : Bool)
    (st : CacheState) (name : String)
    (hn : env.nosso = false)
    (hc : (credentialsParse env.nowStr env.credLines).any
        (fun p => p.name = name) = true)
    (hs : (configParse env.configLines).any (fun p => p.name = name) = true) :
    ((getProfilesManual env skipE st).1.countP
        (fun p => p.name = name) = 1) ∧
    ∃ p q, (getProfilesManual env skipE st).1.find? (fun x => x.name = name) =
        some p ∧
      lookupLastProfile (configParse env.configLines) name = some q ∧
      p.name = name ∧ p.is_sso = true ∧
      p.sso_start_url = q.sso_start_url ∧ p.sso_session = q.sso_session ∧
      p.sso_region = q.sso_region ∧ p.sso_account_id = q.sso_account_id ∧
      p.sso_role_name = q.sso_role_name := by
  obtain ⟨q, hq⟩ := any_lookupLastProfile _ name hs
  have hres : (getProfilesManual env skipE st).1 =
      (credentialsParse env.nowStr env.credLines ++
        (if skipE then (configParse env.configLines, st)
         else mapEnrich env.now st (configParse env.configLines)).1).foldl
        profDictInsert [] := by
    unfold getProfilesManual
    rw [show shouldSkipSso env = false from hn]
    simp
  obtain ⟨q2, hq2, hf1, hf2, hf3, hf4, hf5, hf6, hf7⟩ :
      ∃ q2, lookupLastProfile
          (if skipE then (configParse env.configLines, st)
           else mapEnrich env.now st (configParse env.configLines)).1 name =
          some q2 ∧
        q2.name = q.name ∧ q2.is_sso = q.is_sso ∧
        q2.sso_start_url = q.sso_start_url ∧ q2.sso_session = q.sso_session ∧
        q2.sso_region = q.sso_region ∧ q2.sso_account_id = q.sso_account_id ∧
        q2.sso_role_name = q.sso_role_name := by
    cases skipE with
    | true =>
      rw [if_pos rfl]
      exact ⟨q, hq, rfl, rfl, rfl, rfl, rfl, rfl, rfl⟩
    | false =>
      rw [if_neg (by simp)]
      exact mapEnrich_lookupLast_some env.now name
        (configParse env.configLines) st q hq
  have hqsso : q.is_sso = true :=
    configParse_is_sso env.configLines q (lookupLastProfile_mem _ _ _ hq).1
  have hq2n : q2.name = name := by
    rw [hf1]
    exact (lookupLastProfile_mem _ _ _ hq).2
  have happ : lookupLastProfile
      (credentialsParse env.nowStr env.credLines ++
        (if skipE then (configParse env.configLines, st)
         else mapEnrich env.now st (configParse env.configLines)).1) name =
      some q2 :=
    lookupLastProfile_append _ _ name q2 hq2
  have hany : (credentialsParse env.nowStr env.credLines ++
      (if skipE then (configParse env.configLines, st)
       else mapEnrich env.now st (configParse env.configLines)).1).any
      (fun p => p.name = name) = true := by
    rw [List.any_append, hc]
    rfl
  constructor
  · rw [hres]
    exact (foldl_insert_countP name _ [] (by simp)).2 (Or.inl hany)
  · refine ⟨q2, q, ?_, hq, hq2n, by rw [hf2]; exact hqsso, hf3, hf4, hf5,
      hf6, hf7⟩
    rw [hres]
    exact foldl_insert_find name _ [] q2 happ

/-- Witness for C5: the `dev` profile, defined in both stores, aggregates
to the single SSO record carrying the config store's start URL. -/
theorem manual_aggregation_sso_precedence_ev :
    ((getProfilesManual envBothStores true emptyCache).1.countP
        (fun p => p.name = "dev") = 1) ∧
    ∃ p q, (getProfilesManual envBothStores true emptyCache).1.find?
        (fun x => x.name = "dev") = some p ∧
      lookupLastProfile (configParse envBothStores.configLines) "dev" =
        some q ∧
      p.name = "dev" ∧ p.is_sso = true ∧
      p.sso_start_url = q.sso_start_url ∧ p.sso_session = q.sso_session ∧
      p.sso_region = q.sso_region ∧ p.sso_account_id = q.sso_account_id ∧
      p.sso_role_name = q.sso_role_name :=
  manual_aggregation_sso_precedence envBothStores true emptyCache "dev"
    rfl (by decide) (by decide)
